import Mathlib

/-!
Verification of the server-side Control subsystem of the lunnel relay
(`src/server/serControl.go`).  The Go code is shallowly embedded: the
doubly-linked pipe lists become Lean lists (a removed node keeps its `next`
pointer in the source, so every traversal-with-unlink walk is exactly
structural recursion on the remainder of the list, and unlinking the current
node is dropping the head of the remainder); the mutable `idleCount` int is
threaded explicitly and updated at precisely the source's increment and
decrement sites; external smux sessions are modelled by their two observations
`IsClosed` and `NumStreams`, tabulated in a finite map that the embedded code
mutates when it calls `Close()` on a session; fallible collaborators (message
reads and writes, key exchange) become explicit oracle inputs; a Go `panic`
becomes an explicit `panicked` outcome.
-/

namespace Lunnel

/-- Session identifiers stand for `*smux.Session` pointers. -/
abbrev SessId := Nat

/-- Observable state of one smux session: the two observations the Control
code makes (`IsClosed()` and `NumStreams()`). -/
structure SessInfo where
  closed : Bool
  streams : Nat
deriving DecidableEq, Repr

/-- Finite table from session id to its observable state. -/
abbrev SessMap := List (SessId × SessInfo)

/-- Look a session up; an id absent from the table behaves as a closed
session with no streams (it can never be dispatched). -/
def sessLookup (m : SessMap) (i : SessId) : SessInfo :=
  (((m.find? (fun q => q.1 == i)).map Prod.snd)).getD { closed := true, streams := 0 }

/-- Embeds `pipe.IsClosed()`. -/
def IsClosed (m : SessMap) (i : SessId) : Bool :=
  (sessLookup m i).closed

/-- Embeds `pipe.NumStreams()`. -/
def NumStreams (m : SessMap) (i : SessId) : Nat :=
  (sessLookup m i).streams

/-- Mark one table entry closed when its id is `i`. -/
def closeAt (i : SessId) (r : SessId × SessInfo) : SessId × SessInfo :=
  if r.1 = i then (r.1, { r.2 with closed := true }) else r

/-- Embeds `pipe.Close()`: mark the session closed in the table. -/
def closeSess (m : SessMap) (i : SessId) : SessMap :=
  m.map (closeAt i)

/-- Control-channel frame types used by the Control (`Lunnel/msg`). -/
inductive MsgType where
  | ping
  | pong
  | pipeReq
  | clientKeyExchange
  | serverKeyExchange
  | clientID
  | syncTunnels
deriving DecidableEq, Repr

/-- Tunables, serControl.go lines 18-23 (durations in nanoseconds, as Go's
`time.Duration` counts them). -/
def maxIdlePipes : Nat := 3

/-- Tunable `maxStreams`, line 19. -/
def maxStreams : Nat := 6

/-- Tunable `pingInterval = 8 s` in nanoseconds, line 21. -/
def pingIntervalNanos : Nat := 8 * 1000000000

/-- Tunable `pingTimeout = 15 s` in nanoseconds, line 22. -/
def pingTimeoutNanos : Nat := 15 * 1000000000

/-- Pool state of one `Control` (lines 58-76): the two pipe lists, the idle
counter (a Go `int`, hence `Int` here: the source decrements it
unconditionally), and the session table. -/
structure Ctl where
  busyPipes : List SessId
  idlePipes : List SessId
  idleCount : Int
  sessions : SessMap
deriving DecidableEq, Repr

/-- Embeds `addIdlePipe` (lines 78-87): prepend a fresh node to the idle
list and increment the counter. -/
def addIdlePipe (c : Ctl) (p : SessId) : Ctl :=
  { c with idlePipes := p :: c.idlePipes, idleCount := c.idleCount + 1 }

/-- Embeds `addBusyPipe` (lines 89-96): prepend to the busy list; the busy
count is not tracked. -/
def addBusyPipe (c : Ctl) (p : SessId) : Ctl :=
  { c with busyPipes := p :: c.busyPipes }

/-- Embeds `removeIdleNode` (lines 98-111) applied to the node at position
`i` of the idle list (every call site passes a node reached by traversal
from the head).  The counter is decremented unconditionally, exactly as in
the source. -/
def removeIdleNode (c : Ctl) (i : Nat) : Ctl :=
  { c with idlePipes := c.idlePipes.eraseIdx i, idleCount := c.idleCount - 1 }

/-- Embeds `removeBusyNode` (lines 113-125) at position `i` of the busy
list; no counter exists for the busy list. -/
def removeBusyNode (c : Ctl) (i : Nat) : Ctl :=
  { c with busyPipes := c.busyPipes.eraseIdx i }

/-- Embeds the loop of `getIdleFast` (lines 177-192) over the remaining idle
list: a closed head is unlinked (`removeIdleNode`, one decrement) and the walk
moves to `idle.next`; a live head is unlinked and returned.  Returns the new
idle counter, the remaining idle list and the popped session. -/
def getIdleFastAux (m : SessMap) (cnt : Int) :
    List SessId → Int × List SessId × Option SessId
  | [] => (cnt, [], none)
  | p :: rest =>
      if IsClosed m p then getIdleFastAux m (cnt - 1) rest
      else (cnt - 1, rest, some p)

/-- Embeds `getIdleFast` (lines 177-192). -/
def getIdleFast (c : Ctl) : Ctl × Option SessId :=
  ({ c with idleCount := (getIdleFastAux c.sessions c.idleCount c.idlePipes).1,
            idlePipes := (getIdleFastAux c.sessions c.idleCount c.idlePipes).2.1 },
    (getIdleFastAux c.sessions c.idleCount c.idlePipes).2.2)

/-- Embeds the busy-list walk of `clean` (lines 147-159) over the remaining
busy list, threading the idle counter and the idle list (a node whose pipe is
closed is dropped; a node whose stream count fell below `maxStreams` is
unlinked and `addIdlePipe`d; the source reads the unlinked node's intact
`next` pointer to continue, i.e. it recurses on the rest).  Returns the new
busy list, the idle counter and the idle list. -/
def cleanBusyAux (m : SessMap) (cnt : Int) (idle : List SessId) :
    List SessId → List SessId × Int × List SessId
  | [] => ([], cnt, idle)
  | p :: rest =>
      if IsClosed m p then cleanBusyAux m cnt idle rest
      else if NumStreams m p < maxStreams then
        cleanBusyAux m (cnt + 1) (p :: idle) rest
      else
        (p :: (cleanBusyAux m cnt idle rest).1,
          (cleanBusyAux m cnt idle rest).2.1,
          (cleanBusyAux m cnt idle rest).2.2)

/-- Embeds the idle-list walk of `clean` (lines 160-173), threading the
session table (closing a surplus pipe mutates it), the idle counter and the
remaining idle list.  The surplus test reads the live counter before the
unlink's decrement, exactly as the source does. -/
def cleanIdleAux (m : SessMap) (cnt : Int) :
    List SessId → SessMap × Int × List SessId
  | [] => (m, cnt, [])
  | p :: rest =>
      if IsClosed m p then cleanIdleAux m (cnt - 1) rest
      else if NumStreams m p = 0 ∧ maxIdlePipes < cnt then
        cleanIdleAux (closeSess m p) (cnt - 1) rest
      else
        ((cleanIdleAux m cnt rest).1, (cleanIdleAux m cnt rest).2.1,
          p :: (cleanIdleAux m cnt rest).2.2)

/-- Result of the busy walk of `clean` over the whole busy list. -/
def cleanB (c : Ctl) : List SessId × Int × List SessId :=
  cleanBusyAux c.sessions c.idleCount c.idlePipes c.busyPipes

/-- Result of the idle walk of `clean` over the idle list as the busy walk
left it. -/
def cleanI (c : Ctl) : SessMap × Int × List SessId :=
  cleanIdleAux c.sessions (cleanB c).2.1 (cleanB c).2.2

/-- Embeds `clean` (lines 146-176): busy walk first, then the idle walk over
the idle list as the busy walk left it (moved nodes were prepended). -/
def clean (c : Ctl) : Ctl :=
  { busyPipes := (cleanB c).1, sessions := (cleanI c).1,
    idleCount := (cleanI c).2.1, idlePipes := (cleanI c).2.2 }

/-- Outcome of one pass of the Prepare phase of `pipeManage`. -/
inductive PrepResult where
  | ready (p : SessId)
  | waitLoop
deriving DecidableEq, Repr

/-- Embeds the Prepare phase of `pipeManage` (lines 200-238) up to entry of
the inner wait loop, for a pass in which `available` is absent: the fast pop
(line 202); if it found nothing, `clean()` (line 204), the retried fast pop
(line 205), then — unconditionally, before the retry's result is examined —
the `PIPE_REQ` enqueue (line 206); line 207 then decides between the wait
loop and `available = idle.pipe`.  Returns the resulting pool state, the
frames enqueued to the write queue during the pass, and the outcome. -/
def prepare (c : Ctl) : Ctl × List MsgType × PrepResult :=
  match (getIdleFast c).2 with
  | some p => ((getIdleFast c).1, [], PrepResult.ready p)
  | none =>
      match (getIdleFast (clean (getIdleFast c).1)).2 with
      | none => ((getIdleFast (clean (getIdleFast c).1)).1,
          [MsgType.pipeReq], PrepResult.waitLoop)
      | some p => ((getIdleFast (clean (getIdleFast c).1)).1,
          [MsgType.pipeReq], PrepResult.ready p)

/-- Outcome of running a Go function that may panic. -/
inductive ExecOutcome where
  | panicked (m : String)
  | returned
deriving DecidableEq, Repr

/-- State of the `toDie` channel: whether a close request was ever
delivered on it. -/
structure ToDie where
  delivered : Bool
deriving DecidableEq, Repr

/-- Embeds `Close` (lines 261-268).  Line 262 is the unconditional
`panic("closing")`; in Go a panic aborts the function, so the
offer-or-drop select on `toDie` at lines 263-266 is unreachable and the
channel state is untouched. -/
def CloseRun (t : ToDie) : ExecOutcome × ToDie :=
  (ExecOutcome.panicked "closing", t)

/-- Embeds, for reference, the select at lines 263-266 that `Close` never
reaches: a non-blocking offer on `toDie` that is dropped when the channel
cannot accept it. -/
def closeOfferOrDrop (t : ToDie) (receiverReady : Bool) : ToDie :=
  if receiverReady ∧ ¬t.delivered then { delivered := true } else t

/-- Action taken by one tick of the keepalive scheduler. -/
inductive TickAction where
  | callClose
  | enqueuePing
deriving DecidableEq, Repr

/-- Embeds the tick body of `Serve` (lines 373-381): compare the uint64
difference `now - lastRead` (wrapping subtraction modulo 2^64, as both
stamps are `uint64` nanosecond counts) against `pingTimeout`; on a deadline
miss call `Close` and return, otherwise enqueue a `PING` frame. -/
def serveTick (now lastRead : Nat) : TickAction :=
  if pingTimeoutNanos < (now + 2 ^ 64 - lastRead) % 2 ^ 64 then
    TickAction.callClose
  else
    TickAction.enqueuePing

/-- Action taken by `writeLoop` on one dequeued frame. -/
inductive WriteAction where
  | dropped
  | written
deriving DecidableEq, Repr

/-- Embeds the frame-handling body of `writeLoop` (lines 339-354): a `PING`
or `PONG` arriving while `now` is strictly before `lastWrite + pingInterval/2`
is dropped (`continue`, so `lastWrite` and `idx` are untouched); any other
dequeued frame is written, `idx` counting the `PIPE_REQ`s and `lastWrite`
advancing to `now`.  Times are absolute nanosecond counts. -/
def writeLoopStep (t : MsgType) (now lastWrite : Nat) (idx : Nat) :
    WriteAction × Nat × Nat :=
  if (t = MsgType.ping ∨ t = MsgType.pong) ∧ now < lastWrite + pingIntervalNanos / 2 then
    (WriteAction.dropped, lastWrite, idx)
  else
    (WriteAction.written, now, if t = MsgType.pipeReq then idx + 1 else idx)

/-- Client identifiers (`crypto.UUID`). -/
abbrev UUID := Nat

/-- Oracle for the fallible collaborators of `ServerHandShake`: the result
of `msg.ReadMsg` (`none` is a read error; otherwise the frame type and, for a
key-exchange frame, the client's public value), of `crypto.GenerateKeyExChange`
(`none` models a nil private key or key message), of
`crypto.ProcessKeyExchange` (`none` is a failure), the success of the two
`msg.WriteMsg` calls, and the fresh id `crypto.GenUUID` returns. -/
structure HSEnv where
  readRes : Option (MsgType × Nat)
  keyExRes : Option (Nat × Nat)
  processRes : Option (List Nat)
  writeSKEOk : Bool
  writeCIDOk : Bool
  newId : UUID
deriving DecidableEq, Repr

/-- Embeds the tail of `ServerHandShake` (lines 485-494): write the
`CLIENT_ID` frame, then insert `client_id -> Control` into the process-wide
registry under the write lock.  The registry is modelled as the list of
registered client ids. -/
def handShakeFinish (env : HSEnv) (reg : List UUID) :
    Option String × List UUID :=
  if env.writeCIDOk then (none, env.newId :: reg)
  else (some "Write ClientId", reg)

/-- Embeds `ServerHandShake` (lines 458-495) over the oracle `env`, the
Control's `encryptMode` and the current registry contents.  Returns the Go
error (`none` for the nil error) and the registry as the call leaves it. -/
def ServerHandShake (env : HSEnv) (encryptMode : String) (reg : List UUID) :
    Option String × List UUID :=
  if encryptMode ≠ "none" then
    match env.readRes with
    | none => (some "msg.ReadMsg", reg)
    | some (mType, _) =>
        if mType ≠ MsgType.clientKeyExchange then (some "invalid msg type", reg)
        else
          match env.keyExRes with
          | none => (some "crypto.GenerateKeyExChange error ,exchange key is nil", reg)
          | some _ =>
              match env.processRes with
              | none => (some "crypto.ProcessKeyExchange", reg)
              | some _ =>
                  if env.writeSKEOk then handShakeFinish env reg
                  else (some "write ServerKeyExchange msg", reg)
  else handShakeFinish env reg

/-- Per-Control data `PipeHandShake` reads from the registry. -/
structure CtlInfo where
  encryptMode : String
  preMasterSecret : List Nat
deriving DecidableEq, Repr

/-- Outcome of `PipeHandShake`: a Go panic, an error return, or a successful
`putPipe` of the fresh session. -/
inductive PipeOutcome where
  | panicked (m : String)
  | errored (m : String)
  | okPutPipe
deriving DecidableEq, Repr

/-- Oracle for `PipeHandShake`'s fallible collaborators:
`crypto.NewCryptoConn` and `smux.Client`. -/
structure PipeEnv where
  cryptoConnOk : Bool
  smuxOk : Bool
deriving DecidableEq, Repr

/-- Embeds `PipeHandShake` (lines 497-526).  The registry lookup
`ControlMap[phs.ClientID]` yields Go's zero value — a nil `*Control` — when
the id is absent, and the function proceeds without a presence check; its
first use of the pointer, `ctl.encryptMode` at line 505, then faults with a
nil-pointer dereference. -/
def PipeHandShake (reg : List (UUID × CtlInfo)) (phsId : UUID)
    (env : PipeEnv) : PipeOutcome :=
  match reg.find? (fun q => q.1 == phsId) with
  | none => PipeOutcome.panicked "nil pointer dereference"
  | some q =>
      if q.2.encryptMode ≠ "none" then
        if env.cryptoConnOk then
          if env.smuxOk then PipeOutcome.okPutPipe
          else PipeOutcome.errored "smux.Client"
        else PipeOutcome.errored "crypto.NewCryptoConn"
      else
        if env.smuxOk then PipeOutcome.okPutPipe
        else PipeOutcome.errored "smux.Client"

/-- Observable events of the per-connection handler inside
`ServerSyncTunnels` (lines 411-439), in execution order. -/
inductive Ev where
  | evGetPipe
  | evOpenStream
  | evPutPipe
  | evSpliceStart
  | evCloseStream
  | evCloseConn
  | evRequestClose
deriving DecidableEq, Repr

/-- Embeds the per-connection goroutine of `ServerSyncTunnels`
(lines 411-439) as its event trace: `defer conn.Close()`; `getPipe` (a `nil`
result just returns, firing the defer); `OpenStream` (on error, `putPipe`
then return, firing the defer); on success `defer stream.Close()`, `putPipe`,
then the bidirectional splice; the deferred closes run last in LIFO order.
`pipeOk` is whether `getPipe` returned a session, `openOk` whether
`OpenStream` succeeded. -/
def handleConn (pipeOk : Bool) (openOk : Bool) : List Ev :=
  if pipeOk then
    if openOk then
      [Ev.evGetPipe, Ev.evOpenStream, Ev.evPutPipe, Ev.evSpliceStart,
       Ev.evCloseStream, Ev.evCloseConn]
    else
      [Ev.evGetPipe, Ev.evOpenStream, Ev.evPutPipe, Ev.evCloseConn]
  else
    [Ev.evGetPipe, Ev.evCloseConn]

/-- Pool operations of the pipe manager, for stating the counter invariant
over arbitrary operation sequences. -/
inductive PoolOp where
  | add (p : SessId)
  | addBusy (p : SessId)
  | removeAt (i : Nat)
  | getFast
  | runClean
deriving DecidableEq, Repr

/-- Apply one pool operation. -/
def applyOp (c : Ctl) : PoolOp → Ctl
  | PoolOp.add p => addIdlePipe c p
  | PoolOp.addBusy p => addBusyPipe c p
  | PoolOp.removeAt i => removeIdleNode c i
  | PoolOp.getFast => (getIdleFast c).1
  | PoolOp.runClean => clean c

/-- Apply a sequence of pool operations, left to right. -/
def applyOps (c : Ctl) : List PoolOp → Ctl
  | [] => c
  | op :: ops => applyOps (applyOp c op) ops

/-- An operation sequence is valid when every `removeAt` targets a node
actually linked in the idle list at that moment — which is how every call
site of `removeIdleNode` in the source reaches its argument (traversal from
the head). -/
def validOps (c : Ctl) : List PoolOp → Bool
  | [] => true
  | PoolOp.removeAt i :: ops =>
      decide (i < c.idlePipes.length) && validOps (applyOp c (PoolOp.removeAt i)) ops
  | op :: ops => validOps (applyOp c op) ops

/-- Global state for the lifecycle transition system: the two lists, the
manager's `available` session, the sessions currently held by consumers or
by a pipe handshake about to offer them, whether the manager goroutine is
still running, whether `die` is closed, whether the moderator's teardown
scan has run, and the set of sessions on which `Close()` was called. -/
structure Sys where
  idle : List SessId
  busy : List SessId
  avail : Option SessId
  held : List SessId
  mgrAlive : Bool
  died : Bool
  modDone : Bool
  closedSess : List SessId
deriving DecidableEq, Repr

/-- Transition labels of the lifecycle system. -/
inductive Act where
  | takeIdle (p : SessId)
  | dropDeadIdle (p : SessId)
  | dispatch (p : SessId)
  | addFromHeldIdle (p : SessId)
  | addFromHeldBusy (p : SessId)
  | dropDeadHeld (p : SessId)
  | cleanClose (p : SessId)
  | signalDie
  | mgrExit
  | teardown
  | putPipeDie (p : SessId)
deriving DecidableEq, Repr

/-- Small-step transitions of the Control lifecycle, abstracting
`pipeManage` (lines 194-259), `putPipe` (127-135) and `moderator`
(279-307).  Session-state tests are abstracted to membership in
`closedSess`; `clean`'s surplus eviction is over-approximated by allowing
any idle session to be evicted and closed.  Transitions that belong to the
manager goroutine require `mgrAlive`; per Go select semantics they stay
enabled after `die` closes, as a ready rendezvous case may win the select
against the closed `die` case. -/
inductive Step : Sys → Act → Sys → Prop where
  /-- Prepare pops a live idle head into `available` (lines 200-205, 233-237
  via `getIdleFast`). -/
  | takeIdle (st : Sys) (p : SessId) (rest : List SessId)
      (hm : st.mgrAlive = true) (ha : st.avail = none)
      (hi : st.idle = p :: rest) (hl : p ∉ st.closedSess) :
      Step st (Act.takeIdle p) { st with idle := rest, avail := some p }
  /-- The fast pop unlinks and skips a closed idle head (lines 183-185). -/
  | dropDeadIdle (st : Sys) (p : SessId) (rest : List SessId)
      (hm : st.mgrAlive = true) (ha : st.avail = none)
      (hi : st.idle = p :: rest) (hl : p ∈ st.closedSess) :
      Step st (Act.dropDeadIdle p) { st with idle := rest }
  /-- The Available select hands `available` to a `getPipe` consumer
  (lines 244-246). -/
  | dispatch (st : Sys) (p : SessId)
      (hm : st.mgrAlive = true) (ha : st.avail = some p) :
      Step st (Act.dispatch p) { st with avail := none, held := p :: st.held }
  /-- The manager receives a live unsaturated session from `pipeAdd` and
  links it into the idle list (lines 247-251). -/
  | addFromHeldIdle (st : Sys) (p : SessId)
      (hm : st.mgrAlive = true) (hh : p ∈ st.held) (hl : p ∉ st.closedSess) :
      Step st (Act.addFromHeldIdle p)
        { st with held := st.held.erase p, idle := p :: st.idle }
  /-- The manager receives a live saturated session from `pipeAdd` and links
  it into the busy list (lines 247-253). -/
  | addFromHeldBusy (st : Sys) (p : SessId)
      (hm : st.mgrAlive = true) (hh : p ∈ st.held) (hl : p ∉ st.closedSess) :
      Step st (Act.addFromHeldBusy p)
        { st with held := st.held.erase p, busy := p :: st.busy }
  /-- The manager receives an already-closed session from `pipeAdd` and
  drops it (line 248 guard). -/
  | dropDeadHeld (st : Sys) (p : SessId)
      (hm : st.mgrAlive = true) (hh : p ∈ st.held) (hl : p ∈ st.closedSess) :
      Step st (Act.dropDeadHeld p) { st with held := st.held.erase p }
  /-- The manager's `clean()` unlinks and closes an idle session
  (lines 167-171, surplus eviction over-approximated). -/
  | cleanClose (st : Sys) (p : SessId)
      (hm : st.mgrAlive = true) (hi : p ∈ st.idle) :
      Step st (Act.cleanClose p)
        { st with idle := st.idle.erase p, closedSess := p :: st.closedSess }
  /-- The moderator receives the close request and closes `die`
  (lines 280-282); in the source the only sender of `toDie` is `Close`,
  which panics first. -/
  | signalDie (st : Sys) (hd : st.died = false) :
      Step st Act.signalDie { st with died := true }
  /-- The manager observes closed `die` and returns (lines 227-228,
  255-256); its local `available` goes out of scope unclosed. -/
  | mgrExit (st : Sys) (hm : st.mgrAlive = true) (hd : st.died = true) :
      Step st Act.mgrExit { st with mgrAlive := false }
  /-- The moderator's teardown scan closes every session found in the two
  lists (lines 286-305); it runs once. -/
  | teardown (st : Sys) (hd : st.died = true) (hn : st.modDone = false) :
      Step st Act.teardown
        { st with modDone := true,
                  closedSess := st.idle ++ st.busy ++ st.closedSess }
  /-- With `die` closed, `putPipe`'s select can take the `die` branch and
  close the offered session (lines 130-132); once the manager has exited the
  unbuffered `pipeAdd` rendezvous can never fire, so this is the only
  remaining fate of a held session. -/
  | putPipeDie (st : Sys) (p : SessId)
      (hh : p ∈ st.held) (hd : st.died = true) :
      Step st (Act.putPipeDie p)
        { st with held := st.held.erase p, closedSess := p :: st.closedSess }

/-- Some labelled step. -/
def SysStep (s t : Sys) : Prop := ∃ a, Step s a t

/-- Reachability in the lifecycle system. -/
def SysReach : Sys → Sys → Prop := Relation.ReflTransGen SysStep

/-- Initial lifecycle state of the leak scenario: one pooled session, id 0,
linked in the idle list of a live Control. -/
def leakInit : Sys :=
  { idle := [0], busy := [], avail := none, held := [],
    mgrAlive := true, died := false, modDone := false, closedSess := [] }

/-- Leak scenario after the manager pops session 0 as `available`. -/
def leakA : Sys :=
  { idle := [], busy := [], avail := some 0, held := [],
    mgrAlive := true, died := false, modDone := false, closedSess := [] }

/-- Leak scenario after the close request closes `die`. -/
def leakB : Sys :=
  { idle := [], busy := [], avail := some 0, held := [],
    mgrAlive := true, died := true, modDone := false, closedSess := [] }

/-- Leak scenario after the manager observes `die` and returns. -/
def leakC : Sys :=
  { idle := [], busy := [], avail := some 0, held := [],
    mgrAlive := false, died := true, modDone := false, closedSess := [] }

/-- Lifecycle state after the leak scenario: the manager popped session 0 as
`available`, the close request arrived, the manager exited and the moderator
tore down the (now empty) lists. -/
def leakFinal : Sys :=
  { idle := [], busy := [], avail := some 0, held := [],
    mgrAlive := false, died := true, modDone := true, closedSess := [] }

/-- Concrete lifecycle state after death and before teardown, with listed
sessions 1 and 2 and a held session 3. -/
def cexC3 : Sys :=
  { idle := [1], busy := [2], avail := none, held := [3],
    mgrAlive := false, died := true, modDone := false, closedSess := [] }

/-- Concrete pool for the C1 counterexample: session 0 is closed and sits on
the idle list; session 1 is live with no streams and sits on the busy list. -/
def cexC1 : Ctl :=
  { busyPipes := [1], idlePipes := [0], idleCount := 1,
    sessions := [(0, { closed := true, streams := 0 }),
                 (1, { closed := false, streams := 0 })] }

/-- Concrete empty pool. -/
def emptyCtl : Ctl :=
  { busyPipes := [], idlePipes := [], idleCount := 0, sessions := [] }

/-- Concrete pool exercising `clean`: a closed busy session, a live busy
session whose stream count dropped to 2, and a live zero-stream idle
session. -/
def cexC5 : Ctl :=
  { busyPipes := [1, 2], idlePipes := [3], idleCount := 1,
    sessions := [(1, { closed := true, streams := 6 }),
                 (2, { closed := false, streams := 2 }),
                 (3, { closed := false, streams := 0 })] }

/-- Invariant of the leak scenario: session 0 appears nowhere the remaining
transitions can close, and the manager is gone. -/
def LeakInv (u : Sys) : Prop :=
  0 ∉ u.closedSess ∧ 0 ∉ u.idle ∧ 0 ∉ u.busy ∧ 0 ∉ u.held ∧ u.mgrAlive = false

/-- C2: code bug — the claim describes the intended offer-or-drop close
(spec §4.5, §7), but `Close` (serControl.go lines 261-268) opens with an
unconditional `panic("closing")`, so no call performs the non-blocking offer
on `toDie` or returns normally, and `toDie` is never delivered by it. -/
theorem Close_panics_before_offer (t : ToDie) :
    (CloseRun t).1 = ExecOutcome.panicked "closing" ∧ (CloseRun t).2 = t :=
  ⟨rfl, rfl⟩

/-- C6: code bug — the keepalive tick (Serve, lines 373-381) does detect a
read-silence longer than `pingTimeout` and takes the close branch, but that
branch calls `Close`, whose first statement panics; the Control therefore
never enters CLOSING on a missed deadline. -/
theorem serveTick_deadline_panics (now lastRead : Nat) (t : ToDie)
    (h1 : lastRead ≤ now) (h2 : now < lastRead + 2 ^ 64)
    (h3 : pingTimeoutNanos < now - lastRead) :
    serveTick now lastRead = TickAction.callClose ∧
    (CloseRun t).1 = ExecOutcome.panicked "closing" := by
  refine ⟨?_, rfl⟩
  unfold serveTick
  have hm : (now + 2 ^ 64 - lastRead) % 2 ^ 64 = now - lastRead := by omega
  rw [hm, if_pos h3]

/-- Witness for `serveTick_deadline_panics`: a tick 16 s after the last read. -/
theorem serveTick_deadline_panics_witness :
    (0 : Nat) ≤ 16000000000 ∧ (16000000000 : Nat) < 0 + 2 ^ 64 ∧
    pingTimeoutNanos < 16000000000 - 0 ∧
    (serveTick 16000000000 0 = TickAction.callClose ∧
      (CloseRun { delivered := false }).1 = ExecOutcome.panicked "closing") :=
  ⟨by norm_num, by norm_num,
   by norm_num [pingTimeoutNanos],
   serveTick_deadline_panics 16000000000 0 { delivered := false }
     (by norm_num) (by norm_num) (by norm_num [pingTimeoutNanos])⟩

/-- C9: a frame dequeued by `writeLoop` (lines 339-354) is dropped exactly
when it is a `PING` or `PONG` arriving strictly less than `pingInterval / 2`
after the previous write; every other type, in particular `PIPE_REQ`, is
always written. -/
theorem writeLoop_drop_iff (t : MsgType) (now lastWrite idx : Nat) :
    ((writeLoopStep t now lastWrite idx).1 = WriteAction.dropped ↔
      ((t = MsgType.ping ∨ t = MsgType.pong) ∧
        now < lastWrite + pingIntervalNanos / 2)) ∧
    (t = MsgType.pipeReq →
      (writeLoopStep t now lastWrite idx).1 = WriteAction.written) := by
  unfold writeLoopStep
  constructor
  · split
    · simp_all
    · simp_all
  · intro ht
    subst ht
    simp

/-- Witness for `writeLoop_drop_iff`: a `PIPE_REQ` dequeued immediately
after a write is still written. -/
theorem writeLoop_drop_iff_witness :
    ((writeLoopStep MsgType.pipeReq 0 0 0).1 = WriteAction.dropped ↔
      ((MsgType.pipeReq = MsgType.ping ∨ MsgType.pipeReq = MsgType.pong) ∧
        (0 : Nat) < 0 + pingIntervalNanos / 2)) ∧
    (MsgType.pipeReq = MsgType.pipeReq →
      (writeLoopStep MsgType.pipeReq 0 0 0).1 = WriteAction.written) :=
  writeLoop_drop_iff MsgType.pipeReq 0 0 0

/-- C7: `ServerHandShake` (lines 458-495) inserts `client_id -> Control`
into the registry exactly when it returns the nil error; on every failure
path — read error, wrong frame type, key-exchange failure, failed write of
`SERVER_KEY_EXCHANGE` or of `CLIENT_ID` — it returns a non-nil error and
leaves the registry unchanged. -/
theorem handshake_registers_iff_success (env : HSEnv) (mode : String)
    (reg : List UUID) :
    ((ServerHandShake env mode reg).1 = none ∧
      (ServerHandShake env mode reg).2 = env.newId :: reg) ∨
    ((ServerHandShake env mode reg).1 ≠ none ∧
      (ServerHandShake env mode reg).2 = reg) := by
  unfold ServerHandShake handShakeFinish
  repeat' split
  all_goals simp_all

/-- C10: `PipeHandShake` (lines 497-526) reads `ControlMap[phs.ClientID]`
without a presence check; for a hello whose client id is not registered the
lookup yields a nil Control and the first field access faults instead of
returning an error. -/
theorem pipeHandShake_nil_deref (reg : List (UUID × CtlInfo)) (i : UUID)
    (env : PipeEnv) (h : reg.find? (fun q => q.1 == i) = none) :
    PipeHandShake reg i env = PipeOutcome.panicked "nil pointer dereference" ∧
    ∀ e, PipeHandShake reg i env ≠ PipeOutcome.errored e := by
  unfold PipeHandShake
  rw [h]
  simp

/-- Witness for `pipeHandShake_nil_deref`: the empty registry and client
id 0. -/
theorem pipeHandShake_nil_deref_witness :
    (List.find? (fun q => q.1 == 0) ([] : List (UUID × CtlInfo)) = none) ∧
    (PipeHandShake [] 0 { cryptoConnOk := true, smuxOk := true } =
        PipeOutcome.panicked "nil pointer dereference" ∧
      ∀ e, PipeHandShake [] 0 { cryptoConnOk := true, smuxOk := true } ≠
        PipeOutcome.errored e) :=
  ⟨rfl, pipeHandShake_nil_deref [] 0 { cryptoConnOk := true, smuxOk := true } rfl⟩

/-- C8: in the per-connection handler (lines 411-439), once a pipe is
obtained the session is always returned via `putPipe` — before the splice
starts when `OpenStream` succeeded — no close is ever requested on the
Control, and on an `OpenStream` failure the splice never starts and only the
accepted connection is closed. -/
theorem acceptConn_putPipe_policy (openOk : Bool) :
    (Ev.evPutPipe ∈ handleConn true openOk ∧
      Ev.evRequestClose ∉ handleConn true openOk) ∧
    (openOk = true →
      (handleConn true openOk).indexOf Ev.evPutPipe <
        (handleConn true openOk).indexOf Ev.evSpliceStart) ∧
    (openOk = false →
      Ev.evSpliceStart ∉ handleConn true openOk ∧
      Ev.evCloseConn ∈ handleConn true openOk) := by
  cases openOk <;> decide

/-- Witness for `acceptConn_putPipe_policy`: with a successful
`OpenStream`, `putPipe` precedes the splice. -/
theorem acceptConn_putPipe_policy_witness :
    (handleConn true true).indexOf Ev.evPutPipe <
      (handleConn true true).indexOf Ev.evSpliceStart :=
  (acceptConn_putPipe_policy true).2.1 rfl

/-- C1 counterexample: on `cexC1` the fast pop finds nothing (the only idle
node is closed), `clean()` plus the retried fast pop yields pipe 1, and the
pass nevertheless enqueues a `PIPE_REQ` — the enqueue at line 206 precedes
the `idle == nil` test at line 207, refuting the claim that no `PIPE_REQ` is
enqueued when the retry yields a pipe. -/
theorem prepare_pipeReq_despite_retry_success :
    (getIdleFast cexC1).2 = none ∧
    (prepare cexC1).2.2 = PrepResult.ready 1 ∧
    MsgType.pipeReq ∈ (prepare cexC1).2.1 := by
  decide

/-- C1 amended: in every Prepare pass in which the fast pop finds nothing,
the manager runs `clean()`, retries the fast pop, and then enqueues exactly
one `PIPE_REQ` unconditionally — whether or not the retry yielded a pipe;
a pipe yielded by the retry becomes `available` (no wait loop), and the wait
loop is entered exactly when the retry also found nothing. -/
theorem prepare_after_empty_fast_pop (c : Ctl)
    (h : (getIdleFast c).2 = none) :
    (prepare c).2.1 = [MsgType.pipeReq] ∧
    (prepare c).1 = (getIdleFast (clean (getIdleFast c).1)).1 ∧
    ((prepare c).2.2 = PrepResult.waitLoop ↔
      (getIdleFast (clean (getIdleFast c).1)).2 = none) ∧
    (∀ p, (getIdleFast (clean (getIdleFast c).1)).2 = some p →
      (prepare c).2.2 = PrepResult.ready p) := by
  have hp : prepare c =
      (match (getIdleFast (clean (getIdleFast c).1)).2 with
        | none => ((getIdleFast (clean (getIdleFast c).1)).1,
            [MsgType.pipeReq], PrepResult.waitLoop)
        | some p => ((getIdleFast (clean (getIdleFast c).1)).1,
            [MsgType.pipeReq], PrepResult.ready p)) := by
    unfold prepare
    rw [h]
  rcases hr : (getIdleFast (clean (getIdleFast c).1)).2 with _ | p <;>
    simp [hp, hr]

/-- Witness for `prepare_after_empty_fast_pop`: the empty pool. -/
theorem prepare_after_empty_fast_pop_witness :
    (getIdleFast emptyCtl).2 = none ∧
    (prepare emptyCtl).2.1 = [MsgType.pipeReq] :=
  ⟨by decide, (prepare_after_empty_fast_pop emptyCtl (by decide)).1⟩

theorem getIdleFastAux_count (m : SessMap) (l : List SessId) :
    ∀ cnt : Int,
      (getIdleFastAux m cnt l).1 =
        cnt - l.length + ((getIdleFastAux m cnt l).2.1).length := by
  induction l with
  | nil => intro cnt; simp [getIdleFastAux]
  | cons p rest ih =>
      intro cnt
      unfold getIdleFastAux
      by_cases hc : IsClosed m p = true
      · rw [if_pos hc]
        have := ih (cnt - 1)
        simp only [List.length_cons]
        omega
      · rw [if_neg hc]
        simp only [List.length_cons]
        omega

theorem cleanBusyAux_count (m : SessMap) (busy : List SessId) :
    ∀ (cnt : Int) (idle : List SessId),
      (cleanBusyAux m cnt idle busy).2.1 =
        cnt - idle.length + ((cleanBusyAux m cnt idle busy).2.2).length := by
  induction busy with
  | nil => intro cnt idle; simp [cleanBusyAux]
  | cons p rest ih =>
      intro cnt idle
      unfold cleanBusyAux
      by_cases hc : IsClosed m p = true
      · rw [if_pos hc]
        exact ih cnt idle
      · rw [if_neg hc]
        by_cases hs : NumStreams m p < maxStreams
        · rw [if_pos hs]
          have := ih (cnt + 1) (p :: idle)
          simp only [List.length_cons] at this
          omega
        · rw [if_neg hs]
          exact ih cnt idle

theorem cleanIdleAux_count (m : SessMap) (l : List SessId) :
    ∀ cnt : Int,
      (cleanIdleAux m cnt l).2.1 =
        cnt - l.length + ((cleanIdleAux m cnt l).2.2).length := by
  induction l generalizing m with
  | nil => intro cnt; simp [cleanIdleAux]
  | cons p rest ih =>
      intro cnt
      unfold cleanIdleAux
      by_cases hc : IsClosed m p = true
      · rw [if_pos hc]
        have := ih m (cnt - 1)
        simp only [List.length_cons]
        omega
      · rw [if_neg hc]
        by_cases hz : NumStreams m p = 0 ∧ (maxIdlePipes : Int) < cnt
        · rw [if_pos hz]
          have := ih (closeSess m p) (cnt - 1)
          simp only [List.length_cons]
          omega
        · rw [if_neg hz]
          have := ih m cnt
          simp only [List.length_cons]
          omega

theorem clean_count (c : Ctl)
    (hwf : c.idleCount = (c.idlePipes.length : Int)) :
    (clean c).idleCount = ((clean c).idlePipes.length : Int) := by
  unfold clean cleanI cleanB
  simp only
  have hb := cleanBusyAux_count c.sessions c.busyPipes c.idleCount c.idlePipes
  have hi := cleanIdleAux_count c.sessions
      (cleanBusyAux c.sessions c.idleCount c.idlePipes c.busyPipes).2.2
      (cleanBusyAux c.sessions c.idleCount c.idlePipes c.busyPipes).2.1
  omega

theorem getIdleFast_count (c : Ctl)
    (hwf : c.idleCount = (c.idlePipes.length : Int)) :
    (getIdleFast c).1.idleCount = (((getIdleFast c).1.idlePipes).length : Int) := by
  unfold getIdleFast
  simp only
  have := getIdleFastAux_count c.sessions c.idlePipes c.idleCount
  omega

/-- C4: over every valid sequence of pool operations (`addIdlePipe`,
`addBusyPipe`, `removeIdleNode` on a linked node, `getIdleFast`, `clean`),
`idleCount` equals the length of the idle list after each operation: each
insertion into the idle list is accompanied by exactly one increment and
each unlink — including unlinks performed mid-traversal by `getIdleFast`
and `clean` — by exactly one decrement. -/
theorem idleCount_matches_idleList (ops : List PoolOp) (c : Ctl)
    (hwf : c.idleCount = (c.idlePipes.length : Int))
    (hv : validOps c ops = true) :
    (applyOps c ops).idleCount = (((applyOps c ops).idlePipes).length : Int) := by
  induction ops generalizing c with
  | nil => simpa [applyOps] using hwf
  | cons op ops ih =>
      have hstep : (applyOp c op).idleCount =
          (((applyOp c op).idlePipes).length : Int) := by
        cases op with
        | add p =>
            simp only [applyOp, addIdlePipe, List.length_cons]
            omega
        | addBusy p =>
            simpa [applyOp, addBusyPipe] using hwf
        | removeAt i =>
            have hi : i < c.idlePipes.length := by
              have := hv
              unfold validOps at this
              simp only [Bool.and_eq_true, decide_eq_true_eq] at this
              exact this.1
            simp only [applyOp, removeIdleNode]
            have hlen := List.length_eraseIdx_add_one hi
            omega
        | getFast => exact getIdleFast_count c hwf
        | runClean => exact clean_count c hwf
      have hv2 : validOps (applyOp c op) ops = true := by
        cases op with
        | removeAt i =>
            unfold validOps at hv
            simp only [Bool.and_eq_true] at hv
            exact hv.2
        | add p => exact hv
        | addBusy p => exact hv
        | getFast => exact hv
        | runClean => exact hv
      exact ih (applyOp c op) hstep hv2

/-- Witness for `idleCount_matches_idleList`: a concrete valid operation
sequence from the empty pool. -/
theorem idleCount_matches_idleList_witness :
    (emptyCtl.idleCount = (emptyCtl.idlePipes.length : Int) ∧
      validOps emptyCtl
        [PoolOp.add 1, PoolOp.add 2, PoolOp.removeAt 0, PoolOp.getFast,
          PoolOp.runClean] = true) ∧
    (applyOps emptyCtl
        [PoolOp.add 1, PoolOp.add 2, PoolOp.removeAt 0, PoolOp.getFast,
          PoolOp.runClean]).idleCount =
      (((applyOps emptyCtl
        [PoolOp.add 1, PoolOp.add 2, PoolOp.removeAt 0, PoolOp.getFast,
          PoolOp.runClean]).idlePipes).length : Int) :=
  ⟨⟨by decide, by decide⟩,
    idleCount_matches_idleList
      [PoolOp.add 1, PoolOp.add 2, PoolOp.removeAt 0, PoolOp.getFast,
        PoolOp.runClean] emptyCtl (by decide) (by decide)⟩

theorem closeAt_fst (i : SessId) (r : SessId × SessInfo) :
    (closeAt i r).1 = r.1 := by
  unfold closeAt
  by_cases h : r.1 = i
  · rw [if_pos h]
  · rw [if_neg h]

theorem find?_closeSess (m : SessMap) (p q : SessId) :
    List.find? (fun r => r.1 == q) (closeSess m p) =
      Option.map (closeAt p) (List.find? (fun r => r.1 == q) m) := by
  unfold closeSess
  rw [List.find?_map]
  congr 2
  funext r
  simp [Function.comp, closeAt_fst]

theorem sessLookup_closeSess_ne (m : SessMap) (p q : SessId) (h : q ≠ p) :
    sessLookup (closeSess m p) q = sessLookup m q := by
  unfold sessLookup
  rw [find?_closeSess]
  cases hf : List.find? (fun r => r.1 == q) m with
  | none => simp [hf]
  | some r =>
      have hr : r.1 = q := by
        have := List.find?_some hf
        simpa [beq_iff_eq] using this
      have hrp : ¬r.1 = p := by rw [hr]; exact h
      simp [hf, closeAt, hrp]

theorem numStreams_closeSess (m : SessMap) (p q : SessId) :
    NumStreams (closeSess m p) q = NumStreams m q := by
  unfold NumStreams sessLookup
  rw [find?_closeSess]
  cases hf : List.find? (fun r => r.1 == q) m with
  | none => simp [hf]
  | some r =>
      by_cases hrp : r.1 = p
      · simp [hf, closeAt, hrp]
      · simp [hf, closeAt, hrp]

theorem cleanIdleAux_sessions_untouched (l : List SessId) :
    ∀ (m : SessMap) (cnt : Int) (q : SessId), q ∉ l →
      sessLookup (cleanIdleAux m cnt l).1 q = sessLookup m q := by
  induction l with
  | nil => intro m cnt q _; rfl
  | cons p rest ih =>
      intro m cnt q hq
      have hqp : q ≠ p := fun he => hq (he ▸ List.mem_cons_self p rest)
      have hqrest : q ∉ rest := fun hr => hq (List.mem_cons_of_mem p hr)
      unfold cleanIdleAux
      by_cases hc : IsClosed m p = true
      · rw [if_pos hc]
        exact ih m (cnt - 1) q hqrest
      · rw [if_neg hc]
        by_cases hz : NumStreams m p = 0 ∧ (maxIdlePipes : Int) < cnt
        · rw [if_pos hz]
          rw [ih (closeSess m p) (cnt - 1) q hqrest]
          exact sessLookup_closeSess_ne m p q hqp
        · rw [if_neg hz]
          exact ih m cnt q hqrest

theorem cleanIdleAux_numStreams (l : List SessId) :
    ∀ (m : SessMap) (cnt : Int) (q : SessId),
      NumStreams (cleanIdleAux m cnt l).1 q = NumStreams m q := by
  induction l with
  | nil => intro m cnt q; rfl
  | cons p rest ih =>
      intro m cnt q
      unfold cleanIdleAux
      by_cases hc : IsClosed m p = true
      · rw [if_pos hc]
        exact ih m (cnt - 1) q
      · rw [if_neg hc]
        by_cases hz : NumStreams m p = 0 ∧ (maxIdlePipes : Int) < cnt
        · rw [if_pos hz]
          rw [ih (closeSess m p) (cnt - 1) q]
          exact numStreams_closeSess m p q
        · rw [if_neg hz]
          exact ih m cnt q

theorem cleanIdleAux_kept_subset (l : List SessId) :
    ∀ (m : SessMap) (cnt : Int) (q : SessId),
      q ∈ (cleanIdleAux m cnt l).2.2 → q ∈ l := by
  induction l with
  | nil => intro m cnt q hq; simp [cleanIdleAux] at hq
  | cons p rest ih =>
      intro m cnt q hq
      unfold cleanIdleAux at hq
      by_cases hc : IsClosed m p = true
      · rw [if_pos hc] at hq
        exact List.mem_cons_of_mem p (ih m (cnt - 1) q hq)
      · rw [if_neg hc] at hq
        by_cases hz : NumStreams m p = 0 ∧ (maxIdlePipes : Int) < cnt
        · rw [if_pos hz] at hq
          exact List.mem_cons_of_mem p (ih (closeSess m p) (cnt - 1) q hq)
        · rw [if_neg hz] at hq
          rcases List.mem_cons.mp hq with he | ht
          · exact he ▸ List.mem_cons_self p rest
          · exact List.mem_cons_of_mem p (ih m cnt q ht)

theorem cleanIdleAux_mono (l : List SessId) :
    ∀ (m : SessMap) (cnt : Int), (cleanIdleAux m cnt l).2.1 ≤ cnt := by
  induction l with
  | nil => intro m cnt; simp [cleanIdleAux]
  | cons p rest ih =>
      intro m cnt
      unfold cleanIdleAux
      by_cases hc : IsClosed m p = true
      · rw [if_pos hc]
        have := ih m (cnt - 1)
        omega
      · rw [if_neg hc]
        by_cases hz : NumStreams m p = 0 ∧ (maxIdlePipes : Int) < cnt
        · rw [if_pos hz]
          have := ih (closeSess m p) (cnt - 1)
          omega
        · rw [if_neg hz]
          exact ih m cnt

theorem cleanIdleAux_zero_kept (l : List SessId) :
    ∀ (m : SessMap) (cnt : Int) (q : SessId),
      q ∈ (cleanIdleAux m cnt l).2.2 → NumStreams m q = 0 →
      (cleanIdleAux m cnt l).2.1 ≤ (maxIdlePipes : Int) := by
  induction l with
  | nil => intro m cnt q hq _; simp [cleanIdleAux] at hq
  | cons p rest ih =>
      intro m cnt q hq hz0
      unfold cleanIdleAux at hq ⊢
      by_cases hc : IsClosed m p = true
      · rw [if_pos hc] at hq ⊢
        exact ih m (cnt - 1) q hq hz0
      · rw [if_neg hc] at hq ⊢
        by_cases hz : NumStreams m p = 0 ∧ (maxIdlePipes : Int) < cnt
        · rw [if_pos hz] at hq ⊢
          refine ih (closeSess m p) (cnt - 1) q hq ?_
          rw [numStreams_closeSess]
          exact hz0
        · rw [if_neg hz] at hq ⊢
          rcases List.mem_cons.mp hq with he | ht
          · have hple : cnt ≤ (maxIdlePipes : Int) := by
              by_contra hgt
              exact hz ⟨he ▸ hz0, by omega⟩
            have := cleanIdleAux_mono rest m cnt
            show (cleanIdleAux m cnt rest).2.1 ≤ (maxIdlePipes : Int)
            omega
          · exact ih m cnt q ht hz0

theorem cleanIdleAux_kept_open (l : List SessId) :
    ∀ (m : SessMap) (cnt : Int), l.Nodup →
      ∀ q ∈ (cleanIdleAux m cnt l).2.2,
        IsClosed (cleanIdleAux m cnt l).1 q = false := by
  induction l with
  | nil => intro m cnt _ q hq; simp [cleanIdleAux] at hq
  | cons p rest ih =>
      intro m cnt hnd q hq
      have hndr : rest.Nodup := (List.nodup_cons.mp hnd).2
      have hpr : p ∉ rest := (List.nodup_cons.mp hnd).1
      unfold cleanIdleAux at hq ⊢
      by_cases hc : IsClosed m p = true
      · rw [if_pos hc] at hq ⊢
        exact ih m (cnt - 1) hndr q hq
      · rw [if_neg hc] at hq ⊢
        by_cases hz : NumStreams m p = 0 ∧ (maxIdlePipes : Int) < cnt
        · rw [if_pos hz] at hq ⊢
          exact ih (closeSess m p) (cnt - 1) hndr q hq
        · rw [if_neg hz] at hq ⊢
          rcases List.mem_cons.mp hq with he | ht
          · subst he
            show (sessLookup (cleanIdleAux m cnt rest).1 q).closed = false
            rw [cleanIdleAux_sessions_untouched rest m cnt q hpr]
            simpa using hc
          · exact ih m cnt hndr q ht

theorem cleanBusyAux_kept (busy : List SessId) :
    ∀ (m : SessMap) (cnt : Int) (idle : List SessId) (q : SessId),
      q ∈ (cleanBusyAux m cnt idle busy).1 →
      q ∈ busy ∧ IsClosed m q = false ∧ ¬NumStreams m q < maxStreams := by
  induction busy with
  | nil => intro m cnt idle q hq; simp [cleanBusyAux] at hq
  | cons p rest ih =>
      intro m cnt idle q hq
      unfold cleanBusyAux at hq
      by_cases hc : IsClosed m p = true
      · rw [if_pos hc] at hq
        obtain ⟨h1, h2, h3⟩ := ih m cnt idle q hq
        exact ⟨List.mem_cons_of_mem p h1, h2, h3⟩
      · rw [if_neg hc] at hq
        by_cases hs : NumStreams m p < maxStreams
        · rw [if_pos hs] at hq
          obtain ⟨h1, h2, h3⟩ := ih m (cnt + 1) (p :: idle) q hq
          exact ⟨List.mem_cons_of_mem p h1, h2, h3⟩
        · rw [if_neg hs] at hq
          rcases List.mem_cons.mp hq with he | ht
          · subst he
            exact ⟨List.mem_cons_self _ _, by simpa using hc, hs⟩
          · obtain ⟨h1, h2, h3⟩ := ih m cnt idle q ht
            exact ⟨List.mem_cons_of_mem p h1, h2, h3⟩

theorem cleanBusyAux_idle_subset (busy : List SessId) :
    ∀ (m : SessMap) (cnt : Int) (idle : List SessId) (q : SessId),
      q ∈ (cleanBusyAux m cnt idle busy).2.2 → q ∈ busy ∨ q ∈ idle := by
  induction busy with
  | nil =>
      intro m cnt idle q hq
      right
      simpa [cleanBusyAux] using hq
  | cons p rest ih =>
      intro m cnt idle q hq
      unfold cleanBusyAux at hq
      by_cases hc : IsClosed m p = true
      · rw [if_pos hc] at hq
        rcases ih m cnt idle q hq with h | h
        · exact Or.inl (List.mem_cons_of_mem p h)
        · exact Or.inr h
      · rw [if_neg hc] at hq
        by_cases hs : NumStreams m p < maxStreams
        · rw [if_pos hs] at hq
          rcases ih m (cnt + 1) (p :: idle) q hq with h | h
          · exact Or.inl (List.mem_cons_of_mem p h)
          · rcases List.mem_cons.mp h with he | ht
            · exact Or.inl (he ▸ List.mem_cons_self p rest)
            · exact Or.inr ht
        · rw [if_neg hs] at hq
          rcases ih m cnt idle q hq with h | h
          · exact Or.inl (List.mem_cons_of_mem p h)
          · exact Or.inr h

theorem cleanBusyAux_nodup (busy : List SessId) :
    ∀ (m : SessMap) (cnt : Int) (idle : List SessId),
      (busy ++ idle).Nodup →
      ((cleanBusyAux m cnt idle busy).1 ++
        (cleanBusyAux m cnt idle busy).2.2).Nodup := by
  induction busy with
  | nil => intro m cnt idle h; simpa [cleanBusyAux] using h
  | cons p rest ih =>
      intro m cnt idle hnd
      rw [List.cons_append] at hnd
      have hnd' : (rest ++ idle).Nodup := (List.nodup_cons.mp hnd).2
      have hpni : p ∉ rest ++ idle := (List.nodup_cons.mp hnd).1
      unfold cleanBusyAux
      by_cases hc : IsClosed m p = true
      · rw [if_pos hc]
        exact ih m cnt idle hnd'
      · rw [if_neg hc]
        by_cases hs : NumStreams m p < maxStreams
        · rw [if_pos hs]
          refine ih m (cnt + 1) (p :: idle) ?_
          rw [List.Perm.nodup_iff List.perm_middle]
          exact List.nodup_cons.mpr ⟨hpni, hnd'⟩
        · rw [if_neg hs]
          rw [List.cons_append]
          refine List.nodup_cons.mpr ⟨?_, ih m cnt idle hnd'⟩
          intro hmem
          rcases List.mem_append.mp hmem with hK | hI
          · exact hpni (List.mem_append.mpr
              (Or.inl (cleanBusyAux_kept rest m cnt idle p hK).1))
          · rcases cleanBusyAux_idle_subset rest m cnt idle p hI with h | h
            · exact hpni (List.mem_append.mpr (Or.inl h))
            · exact hpni (List.mem_append.mpr (Or.inr h))

theorem cleanBusyAux_idle_mono (busy : List SessId) :
    ∀ (m : SessMap) (cnt : Int) (idle : List SessId) (q : SessId),
      q ∈ idle → q ∈ (cleanBusyAux m cnt idle busy).2.2 := by
  induction busy with
  | nil => intro m cnt idle q hq; simpa [cleanBusyAux] using hq
  | cons p rest ih =>
      intro m cnt idle q hq
      unfold cleanBusyAux
      by_cases hc : IsClosed m p = true
      · rw [if_pos hc]
        exact ih m cnt idle q hq
      · rw [if_neg hc]
        by_cases hs : NumStreams m p < maxStreams
        · rw [if_pos hs]
          exact ih m (cnt + 1) (p :: idle) q (List.mem_cons_of_mem p hq)
        · rw [if_neg hs]
          exact ih m cnt idle q hq

theorem cleanBusyAux_moved (busy : List SessId) :
    ∀ (m : SessMap) (cnt : Int) (idle : List SessId) (q : SessId),
      q ∈ busy → IsClosed m q = false → NumStreams m q < maxStreams →
      q ∈ (cleanBusyAux m cnt idle busy).2.2 := by
  induction busy with
  | nil => intro m cnt idle q hq _ _; simp at hq
  | cons p rest ih =>
      intro m cnt idle q hq hcl hst
      unfold cleanBusyAux
      by_cases hc : IsClosed m p = true
      · rw [if_pos hc]
        rcases List.mem_cons.mp hq with he | ht
        · subst he
          rw [hcl] at hc
          exact Bool.noConfusion hc
        · exact ih m cnt idle q ht hcl hst
      · rw [if_neg hc]
        by_cases hs : NumStreams m p < maxStreams
        · rw [if_pos hs]
          rcases List.mem_cons.mp hq with he | ht
          · subst he
            exact cleanBusyAux_idle_mono rest m (cnt + 1) (q :: idle) q
              (List.mem_cons_self q idle)
          · exact ih m (cnt + 1) (p :: idle) q ht hcl hst
        · rw [if_neg hs]
          rcases List.mem_cons.mp hq with he | ht
          · subst he
            exact absurd hst hs
          · exact ih m cnt idle q ht hcl hst

/-- C5: when `clean()` returns: no node whose session is closed remains in
either list; every node remaining in the busy list had
`numStreams >= maxStreams` when checked, and every live busy node whose
stream count had dropped below `maxStreams` was moved into the idle list the
idle walk then scans; and `idleCount` is at most `maxIdlePipes` plus the
number of remaining idle nodes with a positive stream count. -/
theorem clean_postconditions (c : Ctl)
    (hwf : c.idleCount = (c.idlePipes.length : Int))
    (hnd : (c.busyPipes ++ c.idlePipes).Nodup) :
    (∀ q ∈ (clean c).busyPipes,
        IsClosed (clean c).sessions q = false ∧
        maxStreams ≤ NumStreams (clean c).sessions q) ∧
    (∀ q ∈ (clean c).idlePipes, IsClosed (clean c).sessions q = false) ∧
    (∀ q ∈ c.busyPipes, IsClosed c.sessions q = false →
        NumStreams c.sessions q < maxStreams → q ∈ (cleanB c).2.2) ∧
    (clean c).idleCount ≤ (maxIdlePipes : Int) +
      (((clean c).idlePipes.filter
        (fun q => decide (0 < NumStreams (clean c).sessions q))).length : Int) := by
  have hnb : ((cleanB c).1 ++ (cleanB c).2.2).Nodup :=
    cleanBusyAux_nodup c.busyPipes c.sessions c.idleCount c.idlePipes hnd
  have hsplit := List.nodup_append.mp hnb
  refine ⟨?_, ?_, ?_, ?_⟩
  · intro q hq
    have hq' : q ∈ (cleanB c).1 := hq
    have hk := cleanBusyAux_kept c.busyPipes c.sessions c.idleCount
      c.idlePipes q hq'
    have hdisj : q ∉ (cleanB c).2.2 := fun hmem => hsplit.2.2 hq' hmem
    constructor
    · show (sessLookup (cleanI c).1 q).closed = false
      unfold cleanI
      rw [cleanIdleAux_sessions_untouched (cleanB c).2.2 c.sessions
        (cleanB c).2.1 q hdisj]
      exact hk.2.1
    · show maxStreams ≤ NumStreams (cleanI c).1 q
      unfold cleanI
      rw [cleanIdleAux_numStreams (cleanB c).2.2 c.sessions (cleanB c).2.1 q]
      have := hk.2.2
      omega
  · intro q hq
    exact cleanIdleAux_kept_open (cleanB c).2.2 c.sessions (cleanB c).2.1
      hsplit.2.1 q hq
  · intro q hq hcl hst
    exact cleanBusyAux_moved c.busyPipes c.sessions c.idleCount c.idlePipes
      q hq hcl hst
  · show (cleanI c).2.1 ≤ (maxIdlePipes : Int) +
      ((((cleanI c).2.2).filter
        (fun q => decide (0 < NumStreams (cleanI c).1 q))).length : Int)
    by_cases hex : ∃ q, q ∈ (cleanI c).2.2 ∧ NumStreams c.sessions q = 0
    · obtain ⟨q, hq, h0⟩ := hex
      have hle : (cleanI c).2.1 ≤ (maxIdlePipes : Int) :=
        cleanIdleAux_zero_kept (cleanB c).2.2 c.sessions (cleanB c).2.1
          q hq h0
      omega
    · push_neg at hex
      have hall : ∀ q ∈ (cleanI c).2.2,
          (fun q => decide (0 < NumStreams (cleanI c).1 q)) q = true := by
        intro q hq
        have hz := hex q hq
        have hstab : NumStreams (cleanI c).1 q = NumStreams c.sessions q :=
          cleanIdleAux_numStreams (cleanB c).2.2 c.sessions (cleanB c).2.1 q
        simp only [decide_eq_true_eq, hstab]
        omega
      rw [List.filter_eq_self.mpr hall]
      have hcntB := cleanBusyAux_count c.sessions c.busyPipes c.idleCount
        c.idlePipes
      have hcntI := cleanIdleAux_count c.sessions (cleanB c).2.2 (cleanB c).2.1
      have hB : (cleanB c).2.1 = c.idleCount - (c.idlePipes.length : Int) +
          (((cleanB c).2.2).length : Int) := hcntB
      have hI : (cleanI c).2.1 = (cleanB c).2.1 -
          (((cleanB c).2.2).length : Int) + (((cleanI c).2.2).length : Int) :=
        hcntI
      omega

/-- Witness for `clean_postconditions`: the pool `cexC5`, whose idle cap
bound is checked after `clean` moves session 2 and keeps session 3. -/
theorem clean_postconditions_witness :
    cexC5.idleCount = (cexC5.idlePipes.length : Int) ∧
    (cexC5.busyPipes ++ cexC5.idlePipes).Nodup ∧
    (clean cexC5).idleCount ≤ (maxIdlePipes : Int) +
      (((clean cexC5).idlePipes.filter
        (fun q => decide (0 < NumStreams (clean cexC5).sessions q))).length :
          Int) :=
  ⟨by decide, by decide,
    (clean_postconditions cexC5 (by decide) (by decide)).2.2.2⟩

theorem leakInv_step (u v : Sys) (hinv : LeakInv u) (hs : SysStep u v) :
    LeakInv v := by
  obtain ⟨a, hstep⟩ := hs
  obtain ⟨h0, h1, h2, h3, h4⟩ := hinv
  cases hstep with
  | takeIdle p rest hm ha hi hl => rw [h4] at hm; exact Bool.noConfusion hm
  | dropDeadIdle p rest hm ha hi hl =>
      rw [h4] at hm; exact Bool.noConfusion hm
  | dispatch p hm ha => rw [h4] at hm; exact Bool.noConfusion hm
  | addFromHeldIdle p hm hh hl => rw [h4] at hm; exact Bool.noConfusion hm
  | addFromHeldBusy p hm hh hl => rw [h4] at hm; exact Bool.noConfusion hm
  | dropDeadHeld p hm hh hl => rw [h4] at hm; exact Bool.noConfusion hm
  | cleanClose p hm hi => rw [h4] at hm; exact Bool.noConfusion hm
  | signalDie hd => exact ⟨h0, h1, h2, h3, h4⟩
  | mgrExit hm hd => exact ⟨h0, h1, h2, h3, rfl⟩
  | teardown hd hn =>
      refine ⟨?_, h1, h2, h3, h4⟩
      intro hmem
      rcases List.mem_append.mp hmem with hm1 | hm2
      · rcases List.mem_append.mp hm1 with hi | hb
        · exact h1 hi
        · exact h2 hb
      · exact h0 hm2
  | putPipeDie p hh hd =>
      refine ⟨?_, h1, h2, ?_, h4⟩
      · intro hmem
        rcases List.mem_cons.mp hmem with he | ht
        · exact h3 (he ▸ hh)
        · exact h0 ht
      · intro hmem
        exact h3 (List.mem_of_mem_erase hmem)

theorem leakInv_reach (u v : Sys) (hinv : LeakInv u) (hr : SysReach u v) :
    LeakInv v := by
  induction hr with
  | refl => exact hinv
  | tail hab hbc ih => exact leakInv_step _ _ ih hbc

/-- C3 counterexample: session 0 is pooled on the idle list, the manager
pops it as `available`, `die` closes, the manager exits and the moderator
tears down the now-empty lists — a run of the embedded lifecycle system in
which the previously-listed session 0, held as `available`, is closed by
none of the three mechanisms in any reachable future, refuting the claim
that every such session is eventually closed. -/
theorem availableSession_leaks :
    SysReach leakInit leakFinal ∧
    ∀ u, SysReach leakFinal u → (0 : SessId) ∉ u.closedSess := by
  constructor
  · have h1 : SysStep leakInit leakA :=
      ⟨Act.takeIdle 0, Step.takeIdle leakInit 0 [] rfl rfl rfl (by decide)⟩
    have h2 : SysStep leakA leakB := ⟨Act.signalDie, Step.signalDie leakA rfl⟩
    have h3 : SysStep leakB leakC := ⟨Act.mgrExit, Step.mgrExit leakB rfl rfl⟩
    have h4 : SysStep leakC leakFinal :=
      ⟨Act.teardown, Step.teardown leakC rfl rfl⟩
    exact Relation.ReflTransGen.head h1 (Relation.ReflTransGen.head h2
      (Relation.ReflTransGen.head h3 (Relation.ReflTransGen.single h4)))
  · intro u hr
    have hinv : LeakInv leakFinal := by
      refine ⟨?_, ?_, ?_, ?_, rfl⟩ <;> simp [leakFinal]
    exact (leakInv_reach leakFinal u hinv hr).1

/-- C3 amended: a session found in either list by the moderator's teardown
scan is closed by it, and a held session offered via `putPipe` after death
is closed by `putPipe`; `clean()` remains the only other closing mechanism;
but the claim's universal eventual closure fails for a session the manager
holds as `available` when it observes `die`: after the leak run it stays
unclosed in every reachable future. -/
theorem pool_close_mechanisms (st : Sys) :
    (st.died = true → st.modDone = false →
      Step st Act.teardown
        { st with modDone := true,
                  closedSess := st.idle ++ st.busy ++ st.closedSess } ∧
      ∀ p, p ∈ st.idle ∨ p ∈ st.busy →
        p ∈ st.idle ++ st.busy ++ st.closedSess) ∧
    (∀ p, p ∈ st.held → st.died = true →
      Step st (Act.putPipeDie p)
        { st with held := st.held.erase p,
                  closedSess := p :: st.closedSess }) ∧
    (∀ u, SysReach leakFinal u → (0 : SessId) ∉ u.closedSess) := by
  refine ⟨?_, ?_, ?_⟩
  · intro hd hn
    refine ⟨Step.teardown st hd hn, ?_⟩
    intro p hp
    rcases hp with h | h
    · exact List.mem_append.mpr (Or.inl (List.mem_append.mpr (Or.inl h)))
    · exact List.mem_append.mpr (Or.inl (List.mem_append.mpr (Or.inr h)))
  · intro p hp hd
    exact Step.putPipeDie st p hp hd
  · intro u hr
    have hinv : LeakInv leakFinal := by
      refine ⟨?_, ?_, ?_, ?_, rfl⟩ <;> simp [leakFinal]
    exact (leakInv_reach leakFinal u hinv hr).1

/-- Witness for `pool_close_mechanisms`: the state `cexC3`, in which the
teardown step closes the listed sessions 1 and 2 and `putPipe` closes the
held session 3. -/
theorem pool_close_mechanisms_witness :
    Step cexC3 Act.teardown
      { cexC3 with modDone := true,
                   closedSess := cexC3.idle ++ cexC3.busy ++ cexC3.closedSess } ∧
    Step cexC3 (Act.putPipeDie 3)
      { cexC3 with held := cexC3.held.erase 3,
                   closedSess := 3 :: cexC3.closedSess } :=
  ⟨((pool_close_mechanisms cexC3).1 rfl rfl).1,
    (pool_close_mechanisms cexC3).2.1 3 (by decide) rfl⟩

end Lunnel
